import Mathlib

/-!
Verification development for the Manned_PEP CAN telemetry collector
(`headless_gather.py`, `auto_data_collector.py`, `db_to_csv.py`).

The decoder, power detectors, PDO label table and the batching drain loop are
embedded shallowly below.  Python byte strings are `List Nat` (with the
byte-ness constraint `b < 256` carried as a hypothesis where it matters);
fallible operations (`bytes()` conversion, `struct.unpack`, list indexing)
return `Option`, so "the code never raises" is a provable statement rather
than an artifact of totalization.
-/

namespace MannedPEP

/-- Decoded value stored in the `data_values` dict: an integer for the
`U16`/`S16`/`U8`/`&0x0F` branches, or the literal sentinel string that the
source stores for an unsupported data type. -/
inductive DecVal where
  | int (v : Int)
  | str (s : String)
deriving DecidableEq

/-- Byte index part of a `value_range_map` key: a single index (a Python
`int` key component) or an inclusive `(start, end)` pair (a Python tuple of
two ints).  No key of the source map uses the `(start, None)` tuple shape
that line 98 of `headless_gather.py` guards against, so it is not
represented. -/
inductive ByteIdx where
  | single (i : Nat)
  | pair (a b : Nat)
deriving DecidableEq

/-- One entry of `value_range_map`:
`(cobId, byteIdx) : (dataType, description, valueRange, units)`. -/
structure FieldSpec where
  cobId : Nat
  idx : ByteIdx
  dataType : String
  description : String
  valueRange : String
  units : String
deriving DecidableEq

/-- The static field map of `headless_gather.py` (lines 35-54), in source
order. -/
def value_range_map : List FieldSpec :=
  [ ⟨390, .pair 0 1, "U16", "Status word", "0-65535", ""⟩,
    ⟨390, .pair 2 3, "S16", "Actual speed", "-32768 to 32767", "Rpm"⟩,
    ⟨390, .pair 4 5, "U16", "RMS motor Current", "0-65535", "Arms"⟩,
    ⟨390, .pair 6 7, "S16", "DC Bus Voltage", "-32768 to 32767", "Adc"⟩,
    ⟨646, .pair 0 1, "S16", "Internal Speed Reference", "-32768 to 32767", "Rpm"⟩,
    ⟨646, .pair 2 3, "S16", "Reference Torque", "-32768 to 32767", "Nm"⟩,
    ⟨646, .pair 4 5, "S16", "Actual Torque", "-32768 to 32767", "Nm"⟩,
    ⟨646, .pair 6 7, "S16", "Field weakening control: voltage angle", "-32768 to 32767", "Deg"⟩,
    ⟨902, .single 0, "U8", "Field weakening control: regulator status", "0-255", ""⟩,
    ⟨902, .single 1, "U8", "Current limit: actual limit type", "0-15", ""⟩,
    ⟨902, .pair 2 3, "S16", "Motor voltage control: U peak normalized", "-32768 to 32767", ""⟩,
    ⟨902, .pair 4 5, "U16", "Digital status word", "0-65535", ""⟩,
    ⟨902, .pair 6 7, "S16", "Scaled throttle percent", "-32768 to 32767", ""⟩,
    ⟨1158, .pair 0 1, "S16", "Motor voltage control: idLimit", "-32768 to 32767", ""⟩,
    ⟨1158, .pair 2 3, "S16", "Motor voltage control: Idfiltered", "-32768 to 32767", "Arms"⟩,
    ⟨1158, .pair 4 5, "S16", "Actual currents: iq", "-32768 to 32767", "Apk"⟩,
    ⟨1158, .pair 6 7, "S16", "Motor measurements: DC bus current", "-32768 to 32767", "Adc"⟩ ]

/-- Python dict assignment `d[k] = v`: an existing key keeps its position and
gets the new value, a new key is appended at the end. -/
def dictInsert {K V : Type} [DecidableEq K] (k : K) (v : V) :
    List (K × V) → List (K × V)
  | [] => [(k, v)]
  | (k0, v0) :: rest =>
      if k0 = k then (k0, v) :: rest else (k0, v0) :: dictInsert k v rest

/-- Python `d.get(k, dflt)`. -/
def dictGet {K V : Type} [DecidableEq K] (d : List (K × V)) (k : K) (dflt : V) : V :=
  match d.find? (fun kv => kv.1 = k) with
  | some kv => kv.2
  | none => dflt

/-- One dict entry of the decoder result: description mapped to
`(value, value_range, units)`. -/
abbrev Entry := String × (DecVal × String × String)

/-- Two's-complement reading of a 16-bit word (`struct.unpack` of `h`). -/
def toS16 (n : Nat) : Int :=
  if n < 32768 then (n : Int) else (n : Int) - 65536

/-- Python `bytes(l)`: fails if an element is not a byte. -/
def bytesConv (l : List Nat) : Option (List Nat) :=
  if l.all (fun b => b < 256) then some l else none

/-- Python `struct.unpack('>h', bs)[0]`: requires exactly two bytes. -/
def unpackS16BE : List Nat → Option Int
  | [b0, b1] => some (toS16 (b0 * 256 + b1))
  | _ => none

/-- Python `struct.unpack('<h', bs)[0]`: requires exactly two bytes. -/
def unpackS16LE : List Nat → Option Int
  | [b0, b1] => some (toS16 (b1 * 256 + b0))
  | _ => none

/-- The bounds check of `decode_data` (lines 95-108): a spec is skipped
unless every index of its byte range is below the payload length. -/
def fits (idx : ByteIdx) (len : Nat) : Bool :=
  match idx with
  | .single i => i < len
  | .pair a b => a < len && b < len

/-- The `(start, end)` pair the source derives from a key: a single index is
used as both start and end (line 108). -/
def startEnd (idx : ByteIdx) : Nat × Nat :=
  match idx with
  | .single i => (i, i)
  | .pair a b => (a, b)

/-- The data-type dispatch of `decode_data` (lines 110-128) with every
fallible Python operation made explicit: list indexing is `List.get?`, the
`S16` branch slices `data_bytes[start:end+1]`, converts with `bytes(...)`
and unpacks with `struct.unpack('>h', ...)`.  `b % 16` is `b & 0x0F`. -/
def decodeChecked (dt : String) (payload : List Nat) (s e : Nat) : Option DecVal :=
  if dt = "U16" then
    match payload.get? s, payload.get? e with
    | some b0, some b1 => some (.int ((b0 <<< 8) + b1))
    | _, _ => none
  else if dt = "S16" then
    match bytesConv ((payload.drop s).take (e + 1 - s)) with
    | some bs => (unpackS16BE bs).map DecVal.int
    | none => none
  else if dt = "U8" then
    (payload.get? s).map (fun b => DecVal.int b)
  else if dt = "0-15" then
    (payload.get? s).map (fun b => DecVal.int (b % 16))
  else
    some (.str "Unsupported data type")

/-- One iteration of the `for key, (...) in value_range_map.items()` loop of
`decode_data`: skip on id mismatch, skip on a failed bounds check, otherwise
decode and store under the description key.  A raised exception (`none`)
propagates. -/
def decodeStep (msg : Nat) (payload : List Nat) (acc : Option (List Entry))
    (sp : FieldSpec) : Option (List Entry) :=
  match acc with
  | none => none
  | some es =>
      if msg ≠ sp.cobId then some es
      else if ¬ fits sp.idx payload.length then some es
      else
        match decodeChecked sp.dataType payload (startEnd sp.idx).1 (startEnd sp.idx).2 with
        | some v => some (dictInsert sp.description (v, sp.valueRange, sp.units) es)
        | none => none

/-- `decode_data(msg_id, data_bytes)` (lines 84-133): fold the loop body over
the field map starting from the empty dict. -/
def decode_data (msg : Nat) (payload : List Nat) : Option (List Entry) :=
  value_range_map.foldl (decodeStep msg payload) (some [])

/-- Total per-spec value, used to state what `decode_data` returns for a
spec that passed the bounds check. -/
def decodeVal (dt : String) (payload : List Nat) (s e : Nat) : DecVal :=
  if dt = "U16" then .int ((payload.getD s 0 <<< 8) + payload.getD e 0)
  else if dt = "S16" then .int (toS16 (payload.getD s 0 * 256 + payload.getD e 0))
  else if dt = "U8" then .int (payload.getD s 0)
  else if dt = "0-15" then .int (payload.getD s 0 % 16)
  else .str "Unsupported data type"

/-- The dict entry contributed by one field spec. -/
def decodeEntry (payload : List Nat) (sp : FieldSpec) : Entry :=
  (sp.description,
    (decodeVal sp.dataType payload (startEnd sp.idx).1 (startEnd sp.idx).2,
      sp.valueRange, sp.units))

/-- Tests that a byte range is an adjacent pair. -/
def isAdjacentPair : ByteIdx → Bool
  | .pair a b => b == a + 1
  | .single _ => false

/-- Well-formedness of a spec for the `S16` slice: its byte range is an
adjacent pair, so the slice `data_bytes[start:end+1]` has the two bytes
`struct.unpack('>h', ...)` requires. -/
def specOk (sp : FieldSpec) : Prop :=
  sp.dataType = "S16" → isAdjacentPair sp.idx = true

instance (sp : FieldSpec) : Decidable (specOk sp) := by
  unfold specOk; infer_instance

/-! ## Power detectors (`detect_power` lines 159-190, `detect_power_off`
lines 193-224) -/

/-- `POWER_THRESHOLD = 100` (line 31). -/
def POWER_THRESHOLD : Int := 100

/-- `POWER_OFF_THRESHOLD = 50` (line 32). -/
def POWER_OFF_THRESHOLD : Int := 50

/-- `required_readings = 3` (lines 162 and 196). -/
def required_readings : Nat := 3

/-- The shared debounce loop of both detectors over a finite sequence of
voltage readings, with `c` the current `consecutive_readings` counter.
Returns the index (relative to the remaining list) of the reading at which
the function returns `True`, or `none` when the readings run out (the loop
then exits and the function returns `False`). -/
def detectAux (qual : Int → Bool) : List Int → Nat → Option Nat
  | [], _ => none
  | v :: rest, c =>
      if qual v then
        if required_readings ≤ c + 1 then some 0
        else (detectAux qual rest (c + 1)).map (fun i => i + 1)
      else (detectAux qual rest 0).map (fun i => i + 1)

/-- `detect_power`: counter starts at 0, a reading qualifies when
`voltage > POWER_THRESHOLD`. -/
def detect_power (vs : List Int) : Option Nat :=
  detectAux (fun v => POWER_THRESHOLD < v) vs 0

/-- `detect_power_off`: counter starts at 0, a reading qualifies when
`voltage < POWER_OFF_THRESHOLD`. -/
def detect_power_off (vs : List Int) : Option Nat :=
  detectAux (fun v => v < POWER_OFF_THRESHOLD) vs 0

/-- Modelled from the claim: the index of the first reading that completes a
run of 3 consecutive qualifying readings (`some 2` points at the third
element of the first all-qualifying window of three). -/
def firstTriple (qual : Int → Bool) : List Int → Option Nat
  | [] => none
  | v0 :: rest =>
      if (match rest with
          | v1 :: v2 :: _ => qual v0 && qual v1 && qual v2
          | _ => false) = true
      then some 2
      else (firstTriple qual rest).map (fun i => i + 1)

/-- The voltage extraction of `detect_power`/`detect_power_off` (lines 173
and 207): `struct.unpack('<h', msg.data[6:8])[0]`. -/
def detectVoltage (payload : List Nat) : Option Int :=
  unpackS16LE ((payload.drop 6).take 2)

/-! ## Pipeline (`format_can_message`, `read_can_messages`, `main`) -/

/-- A raw CAN frame as delivered by the transport (`msg` in the source).
The float timestamp is only ever copied, never computed with, so it is
carried as an `Int`. -/
structure CanMsg where
  id : Nat
  data : List Nat
  dlc : Nat
  flags : Nat
  timestamp : Int
deriving DecidableEq

/-- The dict returned by `format_can_message` (lines 140-147) and enqueued
on `can_queue`: its `data` field is the `decode_data` result (an exception
there, modelled `none`, would propagate). -/
structure CANRecord where
  pdo_label : String
  id : Nat
  data : Option (List Entry)
  dlc : Nat
  flags : Nat
  timestamp : Int
deriving DecidableEq

/-- The `pdo_map` dict literal (lines 76-81) in source order, before
Python's duplicate-key overwriting. -/
def pdoMapEntries : List (Nat × String) :=
  [(390, "PDO1"), (646, "PDO2"), (390, "PDO3"), (646, "PDO4")]

/-- The `pdo_map` dict the literal actually builds. -/
def pdo_map : List (Nat × String) :=
  pdoMapEntries.foldl (fun d kv => dictInsert kv.1 kv.2 d) []

/-- `format_can_message(msg)` (lines 136-147). -/
def format_can_message (msg : CanMsg) : CANRecord :=
  { pdo_label := dictGet pdo_map msg.id "Unknown PDO"
    id := msg.id
    data := decode_data msg.id msg.data
    dlc := msg.dlc
    flags := msg.flags
    timestamp := msg.timestamp }

/-- The separate (unused) lookup inside `read_can_messages` (line 248):
`pdo_map.get(msg.id, "Unknown_PDO")`. -/
def readLoopPdoLabel (msg : CanMsg) : String :=
  dictGet pdo_map msg.id "Unknown_PDO"

/-- The drain loop of `main` (lines 291-301) with `batch` the current
accumulator: pop each queued record, append it to the batch, hand the batch
to `store_data_for_trial` once it holds 50 records, and flush a nonempty
final batch.  Returns the list of batches passed to
`store_data_for_trial`, in call order. -/
def drainAux {α : Type} : List α → List α → List (List α)
  | [], batch => if batch.isEmpty then [] else [batch]
  | m :: rest, batch =>
      let b2 := batch ++ [m]
      if 50 ≤ b2.length then b2 :: drainAux rest [] else drainAux rest b2

/-- The whole drain phase: queue contents in arrival order, empty starting
batch. -/
def drainBatches {α : Type} (msgs : List α) : List (List α) :=
  drainAux msgs []

/-- The power-on wait as `read_can_messages` sees it when the global
`running` flag is cleared during the wait: the `while running` loop only
processes the readings that arrive before the flag is cleared (the first
`stopAfter` of them), then exits and `detect_power` returns `False`. -/
def detect_power_stopped (stopAfter : Nat) (vs : List Int) : Option Nat :=
  detect_power (vs.take stopAfter)

/-- `read_can_messages` (lines 227-261): when the power-on wait fails the
function returns before the collection loop, enqueuing nothing; otherwise
every frame read during the trial is formatted and enqueued. -/
def read_can_messages (stopAfter : Nat) (vs : List Int) (frames : List CanMsg) :
    List CANRecord :=
  if (detect_power_stopped stopAfter vs).isSome then
    frames.map format_can_message
  else []

/-- Observable outcome of one trial cycle of `main` (lines 279-301): the
records that were enqueued and the batches handed to
`store_data_for_trial`. -/
structure TrialResult where
  enqueued : List CANRecord
  storeCalls : List (List CANRecord)
deriving DecidableEq

/-- One trial cycle: collect (or not, when the power wait fails), then drain
the queue into batches. -/
def trialCycle (stopAfter : Nat) (vs : List Int) (frames : List CanMsg) :
    TrialResult :=
  let q := read_can_messages stopAfter vs frames
  ⟨q, drainBatches q⟩

/-! ## Decoder lemmas -/

lemma getD_of_lt {l : List Nat} {i : Nat} (h : i < l.length) :
    l.getD i 0 = l[i] := by
  rw [List.getD_eq_getElem?_getD, List.getElem?_eq_getElem h]; rfl

lemma getD_lt_256 {l : List Nat} (hB : ∀ b ∈ l, b < 256) (i : Nat) :
    l.getD i 0 < 256 := by
  by_cases h : i < l.length
  · rw [getD_of_lt h]
    exact hB _ (List.getElem_mem h)
  · rw [List.getD_eq_getElem?_getD, List.getElem?_eq_none (by omega)]
    decide

lemma drop_take_two {l : List Nat} {a : Nat} (h : a + 1 < l.length) :
    (l.drop a).take 2 = [l.getD a 0, l.getD (a + 1) 0] := by
  have ha : a < l.length := by omega
  rw [List.drop_eq_getElem_cons ha, List.drop_eq_getElem_cons h, getD_of_lt ha, getD_of_lt h]
  rfl

/-- Under the bounds check (and for a well-formed `S16` spec), every fallible
step of the per-spec decode succeeds and produces the total value
`decodeVal`. -/
lemma decodeChecked_eq_decodeVal {sp : FieldSpec} {payload : List Nat}
    (hOk : specOk sp) (hB : ∀ b ∈ payload, b < 256)
    (hF : fits sp.idx payload.length = true) :
    decodeChecked sp.dataType payload (startEnd sp.idx).1 (startEnd sp.idx).2
      = some (decodeVal sp.dataType payload (startEnd sp.idx).1 (startEnd sp.idx).2) := by
  cases hidx : sp.idx with
  | single i =>
    have hi : i < payload.length := by
      rw [hidx] at hF; simpa [fits] using hF
    have hb1 : payload[i]? = some payload[i] := List.getElem?_eq_getElem hi
    by_cases h1 : sp.dataType = "U16"
    · simp [decodeChecked, decodeVal, h1, startEnd, hb1]
    · by_cases h2 : sp.dataType = "S16"
      · exfalso
        have := hOk h2
        rw [hidx] at this
        simp [isAdjacentPair] at this
      · by_cases h3 : sp.dataType = "U8"
        · simp [decodeChecked, decodeVal, h1, h2, h3, startEnd, hb1]
        · by_cases h4 : sp.dataType = "0-15"
          · simp [decodeChecked, decodeVal, h1, h2, h3, h4, startEnd, hb1]
          · simp [decodeChecked, decodeVal, h1, h2, h3, h4]
  | pair a b =>
    have hab : a < payload.length ∧ b < payload.length := by
      rw [hidx] at hF; simpa [fits] using hF
    have hb1 : payload[a]? = some payload[a] := List.getElem?_eq_getElem hab.1
    have hb2 : payload[b]? = some payload[b] := List.getElem?_eq_getElem hab.2
    by_cases h1 : sp.dataType = "U16"
    · simp [decodeChecked, decodeVal, h1, startEnd, hb1, hb2]
    · by_cases h2 : sp.dataType = "S16"
      · have hb : b = a + 1 := by
          have := hOk h2; rw [hidx] at this; simpa [isAdjacentPair] using this
        subst hb
        have hslice : (payload.drop a).take 2 = [payload.getD a 0, payload.getD (a + 1) 0] :=
          drop_take_two hab.2
        rw [getD_of_lt hab.1, getD_of_lt hab.2] at hslice
        have h256a : payload[a] < 256 := hB _ (List.getElem_mem hab.1)
        have h256b : payload[a + 1] < 256 := hB _ (List.getElem_mem hab.2)
        have harith : a + 1 + 1 - a = 2 := by omega
        simp [decodeChecked, decodeVal, h1, h2, startEnd, harith, hslice,
          bytesConv, unpackS16BE, h256a, h256b, hb1, hb2]
      · by_cases h3 : sp.dataType = "U8"
        · simp [decodeChecked, decodeVal, h1, h2, h3, startEnd, hb1]
        · by_cases h4 : sp.dataType = "0-15"
          · simp [decodeChecked, decodeVal, h1, h2, h3, h4, startEnd, hb1]
          · simp [decodeChecked, decodeVal, h1, h2, h3, h4]

lemma dictInsert_of_not_mem {K V : Type} [DecidableEq K] {es : List (K × V)} {k : K}
    (v : V) (h : ∀ kv ∈ es, kv.1 ≠ k) : dictInsert k v es = es ++ [(k, v)] := by
  induction es with
  | nil => rfl
  | cons kv rest ih =>
    rw [dictInsert, if_neg (h kv (by simp))]
    rw [ih (fun kv' h' => h kv' (by simp [h']))]
    simp

/-- The decoder loop, over any suffix of the field map: it neither raises
nor drops an in-range field, producing exactly one entry per matching spec
that passes the bounds check, appended in map order. -/
lemma foldl_decodeStep_eq (msg : Nat) (payload : List Nat)
    (hB : ∀ b ∈ payload, b < 256) :
    ∀ (specs : List FieldSpec) (es : List Entry),
      (∀ sp ∈ specs, specOk sp) →
      specs.Pairwise (fun x y => x.cobId = y.cobId → x.description ≠ y.description) →
      (∀ sp ∈ specs, msg = sp.cobId → ∀ kv ∈ es, kv.1 ≠ sp.description) →
      specs.foldl (decodeStep msg payload) (some es)
        = some (es ++ (specs.filter
            (fun sp => decide (msg = sp.cobId) && fits sp.idx payload.length)).map
              (decodeEntry payload)) := by
  intro specs
  induction specs with
  | nil => intro es _ _ _; simp
  | cons sp0 rest ih =>
    intro es hOk hPw hKeys
    rw [List.foldl_cons]
    by_cases hm : msg = sp0.cobId
    · by_cases hf : fits sp0.idx payload.length = true
      · have hstep : decodeStep msg payload (some es) sp0
            = some (es ++ [decodeEntry payload sp0]) := by
          rw [decodeStep]
          rw [if_neg (by simpa using hm), if_neg (by simpa using hf)]
          rw [decodeChecked_eq_decodeVal (hOk sp0 (by simp)) hB hf]
          show some (dictInsert sp0.description
            (decodeVal sp0.dataType payload (startEnd sp0.idx).1 (startEnd sp0.idx).2,
              sp0.valueRange, sp0.units) es) = _
          rw [dictInsert_of_not_mem _ (hKeys sp0 (by simp) hm)]
          rfl
        rw [hstep, ih (es ++ [decodeEntry payload sp0])
          (fun sp h => hOk sp (by simp [h]))
          (List.Pairwise.of_cons hPw)
          ?_]
        · rw [List.filter_cons_of_pos (by simp [hm, hf])]
          simp [decodeEntry]
        · intro sp hsp hmsp kv hkv
          rcases List.mem_append.mp hkv with h | h
          · exact hKeys sp (by simp [hsp]) hmsp kv h
          · have hkv0 : kv = decodeEntry payload sp0 := by simpa using h
            have hrel := (List.pairwise_cons.mp hPw).1 sp hsp (hm ▸ hmsp.symm ▸ rfl)
            rw [hkv0]
            simpa [decodeEntry] using hrel
      · have hstep : decodeStep msg payload (some es) sp0 = some es := by
          rw [decodeStep, if_neg (by simpa using hm), if_pos (by simpa using hf)]
        rw [hstep, ih es (fun sp h => hOk sp (by simp [h]))
          (List.Pairwise.of_cons hPw)
          (fun sp hsp => hKeys sp (by simp [hsp]))]
        rw [List.filter_cons_of_neg (by simp [hf])]
    · have hstep : decodeStep msg payload (some es) sp0 = some es := by
        rw [decodeStep, if_pos (by simpa using hm)]
      rw [hstep, ih es (fun sp h => hOk sp (by simp [h]))
        (List.Pairwise.of_cons hPw)
        (fun sp hsp => hKeys sp (by simp [hsp]))]
      rw [List.filter_cons_of_neg (by simp [hm])]

/-- `decode_data` on a byte payload: never an exception, and the result dict
has exactly one entry, in map order, for each spec whose COB-ID matches and
whose byte range fits the payload. -/
lemma decode_data_eq (msg : Nat) (payload : List Nat)
    (hB : ∀ b ∈ payload, b < 256) :
    decode_data msg payload
      = some ((value_range_map.filter
          (fun sp => decide (msg = sp.cobId) && fits sp.idx payload.length)).map
            (decodeEntry payload)) := by
  have h := foldl_decodeStep_eq msg payload hB value_range_map []
    (by decide) (by decide) (by simp)
  simpa [decode_data] using h

/-! ## Detector lemmas -/

lemma firstTriple_short {qual : Int → Bool} {l : List Int} (h : l.length ≤ 2) :
    firstTriple qual l = none := by
  match l, h with
  | [], _ => rfl
  | [a], _ => simp [firstTriple]
  | [a, b], _ => simp [firstTriple]

lemma firstTriple_skip1 {qual : Int → Bool} {v : Int} (hv : qual v = false)
    (t : List Int) :
    firstTriple qual (v :: t) = (firstTriple qual t).map (fun i => i + 1) := by
  match t with
  | [] => simp [firstTriple]
  | [x] => simp [firstTriple]
  | x :: y :: t' => simp [firstTriple, hv]

lemma firstTriple_skip2 {qual : Int → Bool} {v : Int} (hv : qual v = false)
    (p : Int) (t : List Int) :
    firstTriple qual (p :: v :: t) = (firstTriple qual (v :: t)).map (fun i => i + 1) := by
  match t with
  | [] => simp [firstTriple]
  | x :: t' => simp [firstTriple, hv]

lemma firstTriple_skip3 {qual : Int → Bool} {v : Int} (hv : qual v = false)
    (p0 p1 : Int) (t : List Int) :
    firstTriple qual (p0 :: p1 :: v :: t)
      = (firstTriple qual (p1 :: v :: t)).map (fun i => i + 1) := by
  simp [firstTriple, hv]

/-- A window of three can never end at a non-qualifying reading: prepending
up to two readings before it just shifts the first triple of the tail. -/
lemma firstTriple_append_bad {qual : Int → Bool} {v : Int} (hv : qual v = false) :
    ∀ pad : List Int, pad.length ≤ 2 → ∀ t : List Int,
      firstTriple qual (pad ++ v :: t)
        = (firstTriple qual t).map (fun i => i + (pad.length + 1)) := by
  intro pad hlen t
  match pad, hlen with
  | [], _ =>
    rw [List.nil_append, firstTriple_skip1 hv]
    congr 1
  | [p0], _ =>
    rw [List.cons_append, List.nil_append, firstTriple_skip2 hv, firstTriple_skip1 hv,
      Option.map_map]
    congr 1
  | [p0, p1], _ =>
    rw [List.cons_append, List.cons_append, List.nil_append, firstTriple_skip3 hv,
      firstTriple_skip2 hv, firstTriple_skip1 hv, Option.map_map, Option.map_map]
    congr 1

/-- The debounce loop against its first-window specification: running
`detectAux` with a counter already credited by `pad` qualifying readings is
the same as searching for the first all-qualifying window of three in
`pad ++ vs`. -/
lemma detectAux_pad (qual : Int → Bool) :
    ∀ (vs pad : List Int), pad.length ≤ 2 → (∀ x ∈ pad, qual x = true) →
      (detectAux qual vs pad.length).map (fun i => i + pad.length)
        = firstTriple qual (pad ++ vs) := by
  intro vs
  induction vs with
  | nil =>
    intro pad hlen _
    rw [detectAux, firstTriple_short (by simpa using hlen)]
    rfl
  | cons v rest ih =>
    intro pad hlen hq
    by_cases hv : qual v = true
    · by_cases hc : pad.length = 2
      · match pad, hc with
        | [p0, p1], _ =>
          have h0 : qual p0 = true := hq p0 (by simp)
          have h1 : qual p1 = true := hq p1 (by simp)
          rw [detectAux]
          rw [if_pos hv, if_pos (by simp [required_readings])]
          simp [firstTriple, h0, h1, hv]
      · have hle : pad.length + 1 ≤ 2 := by omega
        rw [detectAux, if_pos hv,
          if_neg (by simp [required_readings]; omega), Option.map_map]
        have hstep := ih (pad ++ [v]) (by simpa using hle)
          (by intro x hx
              rcases List.mem_append.mp hx with h | h
              · exact hq x h
              · simpa using (by simpa using h : x = v) ▸ hv)
        rw [List.length_append, List.length_singleton] at hstep
        rw [List.append_assoc, List.singleton_append] at hstep
        rw [← hstep]
        congr 1
        funext i
        simp [Function.comp]
        omega
    · have hvf : qual v = false := by simpa using hv
      rw [detectAux, if_neg (by simp [hvf]), Option.map_map]
      rw [firstTriple_append_bad hvf pad hlen rest]
      have h0 := ih [] (by simp) (by simp)
      simp only [List.length_nil, List.nil_append] at h0
      have h0' : detectAux qual rest 0 = firstTriple qual rest := by
        have := h0
        simpa using this
      rw [← h0']
      congr 1
      funext i
      simp [Function.comp]
      omega

/-- The detectors over a whole reading sequence equal the first-triple
search. -/
lemma detectAux_zero_eq_firstTriple (qual : Int → Bool) (vs : List Int) :
    detectAux qual vs 0 = firstTriple qual vs := by
  have h := detectAux_pad qual vs [] (by simp) (by simp)
  simpa using h

/-! ## Drain-loop lemmas -/

lemma drainAux_flatten {α : Type} :
    ∀ (msgs batch : List α), (drainAux msgs batch).flatten = batch ++ msgs := by
  intro msgs
  induction msgs with
  | nil =>
    intro batch
    by_cases hb : batch.isEmpty = true
    · rw [List.isEmpty_iff.mp hb]
      rfl
    · simp [drainAux, hb]
  | cons m rest ih =>
    intro batch
    rw [drainAux]
    by_cases h49 : 49 ≤ batch.length
    · rw [if_pos (by rw [List.length_append, List.length_singleton]; omega)]
      simp [ih]
    · rw [if_neg (by rw [List.length_append, List.length_singleton]; omega)]
      simp [ih]

lemma drainAux_lengths {α : Type} :
    ∀ (msgs batch : List α), batch.length < 50 →
      (drainAux msgs batch).map List.length
        = List.replicate ((batch.length + msgs.length) / 50) 50
          ++ (if (batch.length + msgs.length) % 50 = 0 then []
              else [(batch.length + msgs.length) % 50]) := by
  intro msgs
  induction msgs with
  | nil =>
    intro batch hk
    have h1 : (batch.length + ([] : List α).length) / 50 = 0 := by simp; omega
    have h2 : (batch.length + ([] : List α).length) % 50 = batch.length := by simp; omega
    rw [h1, h2, List.replicate_zero, List.nil_append]
    by_cases hb : batch.isEmpty = true
    · rw [List.isEmpty_iff.mp hb]
      rfl
    · have hne : batch.length ≠ 0 := by
        intro h0
        exact hb (List.isEmpty_iff.mpr (List.length_eq_zero.mp h0))
      simp [drainAux, hb, hne]
  | cons m rest ih =>
    intro batch hk
    rw [drainAux]
    by_cases h50 : 50 ≤ (batch ++ [m]).length
    · have hk49 : batch.length = 49 := by
        rw [List.length_append, List.length_singleton] at h50
        omega
      have h1 : (batch.length + (m :: rest).length) / 50 = rest.length / 50 + 1 := by
        rw [List.length_cons, hk49]
        omega
      have h2 : (batch.length + (m :: rest).length) % 50 = rest.length % 50 := by
        rw [List.length_cons, hk49]
        omega
      have hb2 : (batch ++ [m]).length = 50 := by
        rw [List.length_append, List.length_singleton, hk49]
      rw [if_pos h50, h1, h2, List.replicate_succ, List.map_cons, hb2]
      rw [ih [] (by norm_num)]
      simp
    · have hlt : (batch ++ [m]).length < 50 := by omega
      have h3 : (batch ++ [m]).length + rest.length = batch.length + (m :: rest).length := by
        rw [List.length_append, List.length_singleton, List.length_cons]
        omega
      rw [if_neg h50, ih (batch ++ [m]) hlt, h3]

/-! ## Arithmetic and monotonicity helpers -/

/-- For a byte-sized low part, shift-or and shift-add coincide. -/
lemma shiftLeft_lor_eq_add {a b : Nat} (h : b < 256) :
    (a <<< 8) ||| b = (a <<< 8) + b := by
  have hb8 : b < 2 ^ 8 := by
    calc b < 256 := h
      _ = 2 ^ 8 := by norm_num
  apply Nat.eq_of_testBit_eq
  intro j
  rw [Nat.testBit_lor, Nat.shiftLeft_eq, Nat.mul_comm a (2 ^ 8),
    Nat.testBit_mul_pow_two_add a hb8 j, Nat.testBit_mul_pow_two]
  by_cases hj : j < 8
  · simp [hj]
  · have hbf : Nat.testBit b j = false := Nat.testBit_lt_two_pow (by
      have h8 : (8 : Nat) ≤ j := by omega
      calc b < 2 ^ 8 := hb8
        _ ≤ 2 ^ j := Nat.pow_le_pow_right (by norm_num) h8)
    simp [hj, hbf, Nat.not_lt.mp hj]

lemma toS16_lb (n : Nat) : -32768 ≤ toS16 n := by
  unfold toS16
  split <;> omega

lemma toS16_ub {n : Nat} (h : n < 65536) : toS16 n ≤ 32767 := by
  unfold toS16
  split <;> omega

lemma toS16_inj {m n : Nat} (hm : m < 65536) (hn : n < 65536) :
    toS16 m = toS16 n ↔ m = n := by
  unfold toS16
  split <;> split <;> omega

lemma getD_take_eq {l : List Nat} {i n : Nat} (h : i < n) :
    (l.take n).getD i 0 = l.getD i 0 := by
  rw [List.getD_eq_getElem?_getD, List.getD_eq_getElem?_getD, List.getElem?_take, if_pos h]

lemma fits_mono {idx : ByteIdx} {len1 len2 : Nat} (h : len1 ≤ len2)
    (hf : fits idx len1 = true) : fits idx len2 = true := by
  cases idx <;> simp [fits] at hf ⊢ <;> omega

/-- Entries of specs that fit a truncated payload have the same decoded
value over the full payload. -/
lemma decodeEntry_take {sp : FieldSpec} {payload : List Nat} {n : Nat}
    (hF : fits sp.idx (payload.take n).length = true) :
    decodeEntry (payload.take n) sp = decodeEntry payload sp := by
  have hlen : (payload.take n).length ≤ n := by
    rw [List.length_take]
    omega
  cases hidx : sp.idx with
  | single i =>
    have hi : i < n := by
      rw [hidx] at hF
      simp [fits] at hF
      omega
    simp only [decodeEntry, hidx, startEnd, decodeVal, getD_take_eq hi]
  | pair a b =>
    have hab : a < n ∧ b < n := by
      rw [hidx] at hF
      simp [fits] at hF
      omega
    simp only [decodeEntry, hidx, startEnd, decodeVal, getD_take_eq hab.1, getD_take_eq hab.2]

/-- The extraction `struct.unpack('<h', msg.data[6:8])[0]` on a payload of
at least 8 bytes is the little-endian two's-complement value of bytes 6 and
7: byte 7 is the high byte. -/
lemma detectVoltage_eq {payload : List Nat} (h : 8 ≤ payload.length) :
    detectVoltage payload = some (toS16 (payload.getD 7 0 * 256 + payload.getD 6 0)) := by
  have h7 : 6 + 1 < payload.length := by omega
  rw [detectVoltage, drop_take_two h7]
  rfl

lemma filter_sublist_filter {α : Type} (l : List α) {p q : α → Bool}
    (h : ∀ x, p x = true → q x = true) :
    List.Sublist (l.filter p) (l.filter q) := by
  induction l with
  | nil => simp
  | cons a t ih =>
    by_cases hp : p a = true
    · rw [List.filter_cons_of_pos hp, List.filter_cons_of_pos (h a hp)]
      exact List.Sublist.cons₂ a ih
    · rw [List.filter_cons_of_neg (by simpa using hp)]
      by_cases hq : q a = true
      · rw [List.filter_cons_of_pos hq]
        exact List.Sublist.cons a ih
      · rw [List.filter_cons_of_neg (by simpa using hq)]
        exact ih

/-! ## Claim theorems -/

/-- C2: over every sequence of voltage readings the power-on detector
(threshold 100) fires exactly at the first reading completing 3 consecutive
strictly-above-threshold readings — any non-qualifying reading resets the
run — and the power-off detector does the same with threshold 50 and
strictly-below comparison; on `[50,150,150,150]` detection fires at the 4th
reading (index 3) and on `[150,50,150,150,150]` at the 5th (index 4). -/
theorem detect_power_debounce_spec :
    (∀ vs : List Int, detect_power vs = firstTriple (fun v => POWER_THRESHOLD < v) vs)
    ∧ (∀ vs : List Int,
        detect_power_off vs = firstTriple (fun v => v < POWER_OFF_THRESHOLD) vs)
    ∧ detect_power [50, 150, 150, 150] = some 3
    ∧ detect_power [150, 50, 150, 150, 150] = some 4 :=
  ⟨fun vs => detectAux_zero_eq_firstTriple _ vs,
   fun vs => detectAux_zero_eq_firstTriple _ vs,
   by decide, by decide⟩

/-- C5 (code evidence): the record enqueued for persistence carries the
decoded value map in its `data` field and no raw payload bytes: for a frame
with id 390 and payload `[0,0,0,0,0,0,1,0]` the enqueued record holds the
decoded fields (with "DC Bus Voltage" 256), not the raw byte string. -/
theorem enqueued_record_holds_decoded_values :
    format_can_message ⟨390, [0, 0, 0, 0, 0, 0, 1, 0], 8, 0, 7⟩
      = { pdo_label := "PDO3", id := 390,
          data := some
            [("Status word", (DecVal.int 0, "0-65535", "")),
             ("Actual speed", (DecVal.int 0, "-32768 to 32767", "Rpm")),
             ("RMS motor Current", (DecVal.int 0, "0-65535", "Arms")),
             ("DC Bus Voltage", (DecVal.int 256, "-32768 to 32767", "Adc"))],
          dlc := 8, flags := 0, timestamp := 7 } := by
  decide

/-- C6: the drain phase hands every enqueued record to the persistence
collaborator in arrival order (the batches concatenate back to the queue
contents) in consecutive batches of exactly 50 plus one final partial batch
of `n % 50` when that is nonzero; 123 records give exactly 3 calls of sizes
`[50, 50, 23]`. -/
theorem drain_batches_spec :
    (∀ msgs : List CANRecord,
      (drainBatches msgs).map List.length
          = List.replicate (msgs.length / 50) 50
            ++ (if msgs.length % 50 = 0 then [] else [msgs.length % 50])
      ∧ (drainBatches msgs).flatten = msgs)
    ∧ (drainBatches (List.range 123)).map List.length = [50, 50, 23]
    ∧ (drainBatches (List.range 123)).flatten = List.range 123 := by
  refine ⟨fun msgs => ⟨?_, ?_⟩, by decide, by decide⟩
  · have h := drainAux_lengths msgs [] (by norm_num)
    simpa [drainBatches] using h
  · have h := drainAux_flatten msgs []
    simpa [drainBatches] using h

/-- C8 (code evidence): no field spec carries the "0-15" data type, so the
low-nibble branch of `decode_data` is dead; the (902, byte 1) field — whose
documented value range is "0-15" — has data type "U8" and decodes payload
byte 0xF3 to 243, while the low-nibble branch itself would give 3. -/
theorem nibble_branch_dead :
    (∀ sp ∈ value_range_map, sp.dataType ≠ "0-15")
    ∧ decode_data 902 [0, 243]
        = some
          [("Field weakening control: regulator status", (DecVal.int 0, "0-255", "")),
           ("Current limit: actual limit type", (DecVal.int 243, "0-15", ""))]
    ∧ decodeChecked "0-15" [0, 243] 1 1 = some (DecVal.int 3)
    ∧ (243 : Int) ≠ 3 := by
  refine ⟨by decide, by decide, by decide, by decide⟩

/-- C9: when the stop flag is raised while the pipeline is still awaiting
power (the power-on wait has not fired among the readings processed before
the stop), the trial cycle finishes with zero enqueued frames and zero
persistence calls: the wait returns false, the read loop never runs, and
the drain stores nothing. -/
theorem stop_during_await_power_stores_nothing :
    ∀ (stopAfter : Nat) (vs : List Int) (frames : List CanMsg),
      detect_power (vs.take stopAfter) = none →
      trialCycle stopAfter vs frames = ⟨[], []⟩ := by
  intro stopAfter vs frames h
  simp [trialCycle, read_can_messages, detect_power_stopped, h, drainBatches, drainAux]

/-- Witness for C9: a bus that would show power at the 3rd reading is
stopped after 2 readings; nothing is collected or stored. -/
theorem stop_during_await_power_stores_nothing_witness :
    detect_power (([150, 150, 150, 150] : List Int).take 2) = none
    ∧ trialCycle 2 [150, 150, 150, 150] [⟨390, [0, 0, 0, 0, 0, 0, 1, 0], 8, 0, 0⟩]
        = ⟨[], []⟩ :=
  ⟨by decide,
   stop_during_await_power_stores_nothing 2 [150, 150, 150, 150]
     [⟨390, [0, 0, 0, 0, 0, 0, 1, 0], 8, 0, 0⟩] (by decide)⟩

/-- C10: Python's duplicate-key overwriting leaves the effective PDO label
map `{390 ↦ "PDO3", 646 ↦ "PDO4"}`; every other message id — including 902
and 1158, which do have field-map entries — receives the supplied default:
"Unknown PDO" in the record built by `format_can_message`, "Unknown_PDO" in
the separate lookup inside `read_can_messages`. -/
theorem pdo_map_effective_mapping :
    pdo_map = [(390, "PDO3"), (646, "PDO4")]
    ∧ (∀ (k : Nat) (dflt : String), k ≠ 390 → k ≠ 646 → dictGet pdo_map k dflt = dflt)
    ∧ (format_can_message ⟨390, [], 0, 0, 0⟩).pdo_label = "PDO3"
    ∧ (format_can_message ⟨646, [], 0, 0, 0⟩).pdo_label = "PDO4"
    ∧ (format_can_message ⟨902, [], 0, 0, 0⟩).pdo_label = "Unknown PDO"
    ∧ readLoopPdoLabel ⟨902, [], 0, 0, 0⟩ = "Unknown_PDO"
    ∧ readLoopPdoLabel ⟨1158, [], 0, 0, 0⟩ = "Unknown_PDO"
    ∧ (∃ sp ∈ value_range_map, sp.cobId = 902)
    ∧ (∃ sp ∈ value_range_map, sp.cobId = 1158) := by
  refine ⟨by decide, ?_, by decide, by decide, by decide, by decide, by decide,
    by decide, by decide⟩
  intro k dflt h390 h646
  have hmap : pdo_map = [(390, "PDO3"), (646, "PDO4")] := by decide
  have h1 : ((390 : Nat) = k) = False := by
    simp only [eq_iff_iff, iff_false]
    exact fun h => h390 h.symm
  have h2 : ((646 : Nat) = k) = False := by
    simp only [eq_iff_iff, iff_false]
    exact fun h => h646 h.symm
  simp [dictGet, hmap, List.find?, h1, h2]

/-- Witness for C10: id 902 with the record default falls through to the
default label. -/
theorem pdo_map_effective_mapping_witness :
    dictGet pdo_map 902 "Unknown PDO" = "Unknown PDO" :=
  pdo_map_effective_mapping.2.1 902 "Unknown PDO" (by decide) (by decide)

/-- C3: for every message id and byte payload (0-8 bytes) `decode_data`
raises nothing and returns exactly one entry per field spec whose COB-ID
matches and whose byte range (single index or inclusive pair) lies within
the payload; out-of-bounds specs are silently skipped, so a truncated
payload yields a sublist (hence subset) of the full payload's entries. -/
theorem decode_data_total_and_monotone :
    (∀ (msg : Nat) (payload : List Nat), (∀ b ∈ payload, b < 256) →
      payload.length ≤ 8 →
      decode_data msg payload
        = some ((value_range_map.filter
            (fun sp => decide (msg = sp.cobId) && fits sp.idx payload.length)).map
              (decodeEntry payload)))
    ∧ (∀ (msg : Nat) (payload : List Nat) (n : Nat), (∀ b ∈ payload, b < 256) →
        ∃ es es', decode_data msg (payload.take n) = some es
          ∧ decode_data msg payload = some es'
          ∧ List.Sublist es es') := by
  constructor
  · intro msg payload hB _
    exact decode_data_eq msg payload hB
  · intro msg payload n hB
    have hBt : ∀ b ∈ payload.take n, b < 256 := fun b hb => hB b (List.mem_of_mem_take hb)
    refine ⟨_, _, decode_data_eq msg (payload.take n) hBt, decode_data_eq msg payload hB, ?_⟩
    have hmap : (value_range_map.filter
        (fun sp => decide (msg = sp.cobId) && fits sp.idx (payload.take n).length)).map
          (decodeEntry (payload.take n))
        = (value_range_map.filter
            (fun sp => decide (msg = sp.cobId) && fits sp.idx (payload.take n).length)).map
              (decodeEntry payload) := by
      apply List.map_congr_left
      intro sp hsp
      have hf : fits sp.idx (payload.take n).length = true := by
        have h := (List.mem_filter.mp hsp).2
        simp only [Bool.and_eq_true] at h
        exact h.2
      exact decodeEntry_take hf
    rw [hmap]
    apply List.Sublist.map
    apply filter_sublist_filter
    intro sp hsp
    simp only [Bool.and_eq_true] at hsp ⊢
    refine ⟨hsp.1, fits_mono ?_ hsp.2⟩
    rw [List.length_take]
    omega

/-- Witness for C3: a 2-byte payload on id 390 decodes to the filter-map
characterization, and the 2-byte truncation of a 3-byte payload yields a
sublist of its entries. -/
theorem decode_data_total_and_monotone_witness :
    decode_data 390 [1, 0]
      = some ((value_range_map.filter
          (fun sp => decide ((390 : Nat) = sp.cobId)
            && fits sp.idx ([1, 0] : List Nat).length)).map
            (decodeEntry [1, 0]))
    ∧ (∃ es es', decode_data 390 (([1, 2, 3] : List Nat).take 2) = some es
        ∧ decode_data 390 [1, 2, 3] = some es'
        ∧ List.Sublist es es') :=
  ⟨decode_data_total_and_monotone.1 390 [1, 0] (by decide) (by decide),
   decode_data_total_and_monotone.2 390 [1, 2, 3] 2 (by decide)⟩

/-- C4: every `S16` field spec whose byte range fits the payload decodes to
the big-endian two's-complement 16-bit value of bytes `[start, end]`, a
value in [-32768, 32767]; concretely (for the spec with range (0, 1)) bytes
`[0x80, 0x00]` decode to -32768 and `[0x7F, 0xFF]` to 32767. -/
theorem s16_decode_spec :
    (∀ sp ∈ value_range_map, sp.dataType = "S16" →
      ∀ payload : List Nat, (∀ b ∈ payload, b < 256) →
        fits sp.idx payload.length = true →
        ∃ es, decode_data sp.cobId payload = some es
          ∧ (sp.description,
              (DecVal.int (toS16 (payload.getD (startEnd sp.idx).1 0 * 256
                  + payload.getD (startEnd sp.idx).2 0)),
                sp.valueRange, sp.units)) ∈ es
          ∧ -32768 ≤ toS16 (payload.getD (startEnd sp.idx).1 0 * 256
              + payload.getD (startEnd sp.idx).2 0)
          ∧ toS16 (payload.getD (startEnd sp.idx).1 0 * 256
              + payload.getD (startEnd sp.idx).2 0) ≤ 32767)
    ∧ decode_data 646 [128, 0]
        = some [("Internal Speed Reference",
            (DecVal.int (-32768), "-32768 to 32767", "Rpm"))]
    ∧ decode_data 646 [127, 255]
        = some [("Internal Speed Reference",
            (DecVal.int 32767, "-32768 to 32767", "Rpm"))] := by
  refine ⟨?_, by decide, by decide⟩
  intro sp hsp hdt payload hB hF
  refine ⟨_, decode_data_eq sp.cobId payload hB, ?_, toS16_lb _, toS16_ub ?_⟩
  · have hmem : sp ∈ value_range_map.filter
        (fun s => decide (sp.cobId = s.cobId) && fits s.idx payload.length) :=
      List.mem_filter.mpr ⟨hsp, by simp [hF]⟩
    have h2 := List.mem_map_of_mem (decodeEntry payload) hmem
    have he : decodeEntry payload sp
        = (sp.description,
            (DecVal.int (toS16 (payload.getD (startEnd sp.idx).1 0 * 256
                + payload.getD (startEnd sp.idx).2 0)),
              sp.valueRange, sp.units)) := by
      simp [decodeEntry, decodeVal, hdt]
    rw [← he]
    exact h2
  · have h1 := getD_lt_256 hB (startEnd sp.idx).1
    have h2 := getD_lt_256 hB (startEnd sp.idx).2
    omega

/-- Witness for C4: the "DC Bus Voltage" spec (390, (6, 7)) on payload
`[0,0,0,0,0,0,1,0]` contributes the decoded value 256. -/
theorem s16_decode_spec_witness :
    ∃ es, decode_data 390 [0, 0, 0, 0, 0, 0, 1, 0] = some es
      ∧ ("DC Bus Voltage", (DecVal.int 256, "-32768 to 32767", "Adc")) ∈ es := by
  obtain ⟨es, h1, h2, _, _⟩ := s16_decode_spec.1
    ⟨390, .pair 6 7, "S16", "DC Bus Voltage", "-32768 to 32767", "Adc"⟩
    (by decide) rfl [0, 0, 0, 0, 0, 0, 1, 0] (by decide) (by decide)
  have hv : ("DC Bus Voltage", (DecVal.int 256, "-32768 to 32767", "Adc"))
      = (("DC Bus Voltage", (DecVal.int (toS16 (([0, 0, 0, 0, 0, 0, 1, 0] : List Nat).getD
            (startEnd (ByteIdx.pair 6 7)).1 0 * 256
          + ([0, 0, 0, 0, 0, 0, 1, 0] : List Nat).getD (startEnd (ByteIdx.pair 6 7)).2 0)),
          "-32768 to 32767", "Adc")) : Entry) := by decide
  exact ⟨es, h1, hv ▸ h2⟩

/-- C7: every `U16` field spec whose byte range fits the payload decodes to
the big-endian unsigned 16-bit value `(byte[start] << 8) | byte[end]` (the
source computes it with `+`, which coincides for bytes), a value in
[0, 65535]; concretely bytes `[0x01, 0x00]` decode to 256. -/
theorem u16_decode_spec :
    (∀ sp ∈ value_range_map, sp.dataType = "U16" →
      ∀ payload : List Nat, (∀ b ∈ payload, b < 256) →
        fits sp.idx payload.length = true →
        ∃ es, decode_data sp.cobId payload = some es
          ∧ (sp.description,
              (DecVal.int (((payload.getD (startEnd sp.idx).1 0 <<< 8)
                  ||| payload.getD (startEnd sp.idx).2 0 : Nat) : Int),
                sp.valueRange, sp.units)) ∈ es
          ∧ (0 : Int) ≤ (((payload.getD (startEnd sp.idx).1 0 <<< 8)
              ||| payload.getD (startEnd sp.idx).2 0 : Nat) : Int)
          ∧ (((payload.getD (startEnd sp.idx).1 0 <<< 8)
              ||| payload.getD (startEnd sp.idx).2 0 : Nat) : Int) ≤ 65535)
    ∧ decode_data 390 [1, 0]
        = some [("Status word", (DecVal.int 256, "0-65535", ""))] := by
  refine ⟨?_, by decide⟩
  intro sp hsp hdt payload hB hF
  have h1 := getD_lt_256 hB (startEnd sp.idx).1
  have h2 := getD_lt_256 hB (startEnd sp.idx).2
  have hor : (payload.getD (startEnd sp.idx).1 0 <<< 8) ||| payload.getD (startEnd sp.idx).2 0
      = (payload.getD (startEnd sp.idx).1 0 <<< 8) + payload.getD (startEnd sp.idx).2 0 :=
    shiftLeft_lor_eq_add h2
  have hsl : payload.getD (startEnd sp.idx).1 0 <<< 8
      = payload.getD (startEnd sp.idx).1 0 * 256 := by
    rw [Nat.shiftLeft_eq]
  refine ⟨_, decode_data_eq sp.cobId payload hB, ?_, by positivity, ?_⟩
  · have hmem : sp ∈ value_range_map.filter
        (fun s => decide (sp.cobId = s.cobId) && fits s.idx payload.length) :=
      List.mem_filter.mpr ⟨hsp, by simp [hF]⟩
    have hm := List.mem_map_of_mem (decodeEntry payload) hmem
    have hval : decodeVal sp.dataType payload (startEnd sp.idx).1 (startEnd sp.idx).2
        = DecVal.int (((payload.getD (startEnd sp.idx).1 0 <<< 8)
            ||| payload.getD (startEnd sp.idx).2 0 : Nat) : Int) := by
      unfold decodeVal
      rw [if_pos hdt, hor]
      norm_cast
    have he : decodeEntry payload sp
        = (sp.description,
            (DecVal.int (((payload.getD (startEnd sp.idx).1 0 <<< 8)
                ||| payload.getD (startEnd sp.idx).2 0 : Nat) : Int),
              sp.valueRange, sp.units)) := by
      unfold decodeEntry
      rw [hval]
    rw [← he]
    exact hm
  · rw [hor, hsl]
    have : payload.getD (startEnd sp.idx).1 0 * 256 + payload.getD (startEnd sp.idx).2 0
        ≤ 65535 := by omega
    exact_mod_cast this

/-- Witness for C7: the "Status word" spec (390, (0, 1)) on payload
`[1, 2]` contributes the decoded value 258. -/
theorem u16_decode_spec_witness :
    ∃ es, decode_data 390 [1, 2] = some es
      ∧ ("Status word", (DecVal.int 258, "0-65535", "")) ∈ es := by
  obtain ⟨es, h1, h2, _, _⟩ := u16_decode_spec.1
    ⟨390, .pair 0 1, "U16", "Status word", "0-65535", ""⟩
    (by decide) rfl [1, 2] (by decide) (by decide)
  have hv : ("Status word", (DecVal.int 258, "0-65535", ""))
      = (("Status word", (DecVal.int ((((([1, 2] : List Nat).getD
            (startEnd (ByteIdx.pair 0 1)).1 0 <<< 8)
          ||| ([1, 2] : List Nat).getD (startEnd (ByteIdx.pair 0 1)).2 0 : Nat) : Int)),
          "0-65535", "")) : Entry) := by decide
  exact ⟨es, h1, hv ▸ h2⟩

/-- C1 counterexample: on the 8-byte payload `[0,0,0,0,0,0,1,0]` of a frame
with message id 390, the decoder's "DC Bus Voltage" field (big-endian `>h`
over bytes 6-7) is 256, while the voltage the power detectors act on
(little-endian `<h` over the same bytes) is 1. -/
theorem detect_voltage_counterexample :
    detectVoltage [0, 0, 0, 0, 0, 0, 1, 0] = some 1
    ∧ decode_data 390 [0, 0, 0, 0, 0, 0, 1, 0]
        = some
          [("Status word", (DecVal.int 0, "0-65535", "")),
           ("Actual speed", (DecVal.int 0, "-32768 to 32767", "Rpm")),
           ("RMS motor Current", (DecVal.int 0, "0-65535", "Arms")),
           ("DC Bus Voltage", (DecVal.int 256, "-32768 to 32767", "Adc"))]
    ∧ (1 : Int) ≠ 256 :=
  ⟨by decide, by decide, by decide⟩

/-- C1 amended: on every power-status frame with at least 8 payload bytes,
the voltage the detectors act on is the little-endian signed 16-bit value
of bytes 6-7 (byte 7 high, byte 6 low) — the byte-swap of the decoder's
big-endian "DC Bus Voltage" value — and the two coincide exactly when bytes
6 and 7 are equal. -/
theorem detect_voltage_little_endian :
    ∀ payload : List Nat, (∀ b ∈ payload, b < 256) → 8 ≤ payload.length →
      detectVoltage payload = some (toS16 (payload.getD 7 0 * 256 + payload.getD 6 0))
      ∧ (∃ es, decode_data 390 payload = some es
          ∧ ("DC Bus Voltage",
              (DecVal.int (toS16 (payload.getD 6 0 * 256 + payload.getD 7 0)),
                "-32768 to 32767", "Adc")) ∈ es)
      ∧ (toS16 (payload.getD 7 0 * 256 + payload.getD 6 0)
            = toS16 (payload.getD 6 0 * 256 + payload.getD 7 0)
          ↔ payload.getD 6 0 = payload.getD 7 0) := by
  intro payload hB hlen
  have h6 := getD_lt_256 hB 6
  have h7 := getD_lt_256 hB 7
  refine ⟨detectVoltage_eq hlen, ?_, ?_⟩
  · refine ⟨_, decode_data_eq 390 payload hB, ?_⟩
    have hfit : fits (ByteIdx.pair 6 7) payload.length = true := by
      simp [fits]
      omega
    have hmem : (⟨390, .pair 6 7, "S16", "DC Bus Voltage", "-32768 to 32767", "Adc"⟩ :
        FieldSpec) ∈ value_range_map.filter
          (fun s => decide ((390 : Nat) = s.cobId) && fits s.idx payload.length) :=
      List.mem_filter.mpr ⟨by decide, by simp [hfit]⟩
    have hm := List.mem_map_of_mem (decodeEntry payload) hmem
    simpa [decodeEntry, decodeVal, startEnd] using hm
  · rw [toS16_inj (by omega) (by omega)]
    omega

/-- Witness for C1's amended statement at the payload `[1,2,3,4,5,6,7,8]`:
the detectors read 8*256+7 = 2055. -/
theorem detect_voltage_little_endian_witness :
    detectVoltage [1, 2, 3, 4, 5, 6, 7, 8] = some 2055 := by
  have h := (detect_voltage_little_endian [1, 2, 3, 4, 5, 6, 7, 8]
    (by decide) (by decide)).1
  have hv : toS16 (([1, 2, 3, 4, 5, 6, 7, 8] : List Nat).getD 7 0 * 256
      + ([1, 2, 3, 4, 5, 6, 7, 8] : List Nat).getD 6 0) = 2055 := by decide
  rw [hv] at h
  exact h

end MannedPEP
